import Mathlib

/-!
Shallow embedding of `src/KindaCodelessArm/simple_position_recorder.py`
(`class SimplePositionSequencer`), capturing the recorder and player logic:
the motors configuration, `get_positions`, `move_to_position`,
`record_sequence` (its interactive capture loop, synthetic closing step,
JSON persistence and torque handling) and `play_sequence` (its per-step
timing and the missing-file abort path).

Modelling choices:
* Durations and raw register reads are modelled as exact rationals (`ℚ`);
  Python `int()` truncation toward zero is `pyInt`.
* The interactive session is modelled by explicit inputs: the list of
  answers to the duration prompt (`none` = non-numeric input raising
  `ValueError`, `some d` = the parsed float), terminated by the operator's
  `KeyboardInterrupt`, plus a stream of bus-read functions, one per
  position capture.  A bus read returning a sequence of length other than
  one makes `int()` raise `TypeError`, modelled as `Option.none`
  propagating as a fatal error.
* Hardware effects are modelled as an action trace (`Act`): torque
  register writes, goal writes, sleeps.
* The JSON file written by `record_sequence` and read back by
  `play_sequence` is an explicit JSON value tree (`Json`), with the
  encoding mirroring the `data` dict built at save time and the decoding
  mirroring the shape `play_sequence` reads.
-/

namespace SimplePositionRecorder

/-- Python `int()` applied to a rational: truncation toward zero. -/
def pyInt (q : ℚ) : Int := if 0 ≤ q then ⌊q⌋ else ⌈q⌉

/-- A value returned by `motor_bus.read`: a scalar, or a sequence
(e.g. a numpy array) of values. -/
inductive BusVal where
  | scalar (v : ℚ)
  | seq (l : List ℚ)
deriving DecidableEq

/-- The `motors_config` dict from `SimplePositionSequencer.__init__`:
joint name, motor id, model string, in insertion order. -/
def motors_config : List (String × Nat × String) :=
  [("shoulder_pan", 1, "sts3215"),
   ("shoulder_lift", 2, "sts3215"),
   ("elbow_flex", 3, "sts3215"),
   ("wrist_flex", 4, "sts3215"),
   ("wrist_roll", 5, "sts3215"),
   ("gripper", 6, "sts3215")]

/-- The configured joint names, in configuration order. -/
def motorNames : List String := motors_config.map (fun m => m.1)

/-- One `Present_Position` read as processed by `get_positions`:
`pos = self.motor_bus.read(...)`, then
`if hasattr(pos, '__len__') and len(pos) == 1: pos = pos[0]`, then
`int(pos)`.  `int()` of a sequence whose length is not 1 raises
`TypeError`, modelled as `none`. -/
def readPresentPosition : BusVal → Option Int
  | .scalar v => some (pyInt v)
  | .seq [v] => some (pyInt v)
  | .seq _ => none

/-- `get_positions`: builds the joint-name → integer-position mapping by
reading `Present_Position` for every joint of `motors_config`; any read
whose `int()` conversion raises propagates as a fatal error (`none`). -/
def get_positions (read : String → BusVal) : Option (List (String × Int)) :=
  motors_config.mapM (fun m => (readPresentPosition (read m.1)).map (fun v => (m.1, v)))

/-- One entry of the `sequence` list built by `record_sequence`:
`{"position": n, "positions": {...}, "duration": d}`. -/
structure Step where
  position : Nat
  positions : List (String × Int)
  duration : ℚ
deriving DecidableEq

/-- The `data` dict persisted by `record_sequence` (and loaded wholesale by
`play_sequence`). -/
structure SavedData where
  name : String
  recorded_at : String
  total_positions : Nat
  sequence : List Step
deriving DecidableEq

/-- Observable hardware actions issued over the motor bus, plus sleeps. -/
inductive Act where
  | torqueOff
  | torqueOn
  | write (register : String) (value : Int) (motor : Option String)
  | sleep (t : ℚ)
deriving DecidableEq

/-- `move_to_position(positions, duration_seconds)`: computes
`time_ms = 800` when `duration_seconds == 0` else
`int(duration_seconds * 1000)`, then for each joint in the snapshot writes
`Goal_Time` then `Goal_Position`. -/
def move_to_position (positions : List (String × Int)) (duration_seconds : ℚ) : List Act :=
  let time_ms : Int := if duration_seconds = 0 then 800 else pyInt (duration_seconds * 1000)
  positions.flatMap (fun p =>
    [Act.write "Goal_Time" time_ms (some p.1),
     Act.write "Goal_Position" p.2 (some p.1)])

/-- Result of the interactive capture (the `sequence` list and
`position_num` counter at loop exit, plus whether a bus read raised a
fatal, uncaught exception). -/
structure CapResult where
  steps : List Step
  nextPos : Nat
  fatal : Bool
deriving DecidableEq

/-- The `while True` loop of `record_sequence`: each prompt answer is
`none` (non-numeric, `ValueError` → "Invalid number", `continue`) or
`some d` (`d < 0` → "Duration cannot be negative", `continue`; otherwise a
position is captured and appended and `position_num` advances).  The list
of answers ends with the operator's `KeyboardInterrupt`, the loop's only
normal exit.  A failing bus read escapes the loop fatally. -/
def recordLoop (reads : Nat → String → BusVal) :
    List (Option ℚ) → Nat → Nat → CapResult
  | [], posNum, _ => ⟨[], posNum, false⟩
  | entry :: rest, posNum, capIdx =>
    match entry with
    | none => recordLoop reads rest posNum capIdx
    | some duration =>
      if duration < 0 then recordLoop reads rest posNum capIdx
      else
        match get_positions (reads capIdx) with
        | none => ⟨[], posNum, true⟩
        | some pos =>
          let r := recordLoop reads rest (posNum + 1) (capIdx + 1)
          ⟨⟨posNum, pos, duration⟩ :: r.steps, r.nextPos, r.fatal⟩

/-- The full capture phase of `record_sequence`: the starting-position
capture (step 1, duration `0.0`; skipped entirely when the operator
interrupts at the very first prompt) followed by the capture loop.
`reads k` is the bus state at the k-th position capture. -/
def capturedSteps (startInterrupted : Bool) (entries : List (Option ℚ))
    (reads : Nat → String → BusVal) : CapResult :=
  if startInterrupted then ⟨[], 1, false⟩
  else
    match get_positions (reads 0) with
    | none => ⟨[], 1, true⟩
    | some pos0 =>
      let r := recordLoop reads entries 2 1
      ⟨⟨1, pos0, 0⟩ :: r.steps, r.nextPos, r.fatal⟩

/-- The post-loop block of `record_sequence`: `if len(sequence) > 1`,
append a synthetic closing step copying `sequence[0]["positions"]` with
duration `1.0` and ordinal `position_num`. -/
def closeLoop (captured : List Step) (posNum : Nat) : List Step :=
  if captured.length > 1 then
    captured ++ [⟨posNum, (captured.headD ⟨0, [], 0⟩).positions, 1⟩]
  else captured

/-- Observable outcome of one `record_sequence` call. -/
structure RecResult where
  torqueDisabled : Bool
  finalSeq : List Step
  saved : Option SavedData
  torqueRestored : Bool
  fatal : Bool
deriving DecidableEq

/-- `record_sequence(name)`: disables torque, runs the capture phase,
appends the synthetic closing step, saves the JSON file and re-enables
torque.  Only `KeyboardInterrupt` is caught: a fatal bus-read error
propagates out of the method before the save and before
`self.torque_on()`, so nothing is saved and torque stays disabled (the
local `sequence` is discarded with the stack frame). -/
def record_sequence (name recorded_at : String) (startInterrupted : Bool)
    (entries : List (Option ℚ)) (reads : Nat → String → BusVal) : RecResult :=
  let cap := capturedSteps startInterrupted entries reads
  if cap.fatal then
    ⟨true, [], none, false, true⟩
  else
    let finalSeq := closeLoop cap.steps cap.nextPos
    ⟨true, finalSeq, some ⟨name, recorded_at, finalSeq.length, finalSeq⟩, true, false⟩

/-- The pre-playback limit-removal block of `play_sequence`: for each
motor, `Min_Angle_Limit := 0` then `Max_Angle_Limit := 4095`, inside a
`try: ... except: pass` — a raising write aborts that motor's block only.
`limitOk motor register` tells whether the write succeeds. -/
def limitWrites (limitOk : String → String → Bool) : List Act :=
  motorNames.flatMap (fun m =>
    if limitOk m "Min_Angle_Limit" then
      if limitOk m "Max_Angle_Limit" then
        [Act.write "Min_Angle_Limit" 0 (some m),
         Act.write "Max_Angle_Limit" 4095 (some m)]
      else [Act.write "Min_Angle_Limit" 0 (some m)]
    else [])

/-- The per-step body of the playback loop of `play_sequence`:
step 1 moves with `duration = 0` then sleeps `1.2`; a later step with
duration 0 moves fast then sleeps `1.0`; a later timed step moves with
its duration and sleeps `duration * 4.0 + 1.0`. -/
def playStepActs (step : Step) : List Act :=
  if step.position = 1 then
    move_to_position step.positions 0 ++ [Act.sleep 1.2]
  else if step.duration = 0 then
    move_to_position step.positions 0 ++ [Act.sleep 1]
  else
    move_to_position step.positions step.duration ++ [Act.sleep (step.duration * 4 + 1)]

/-- `play_sequence(name)`: if the sequence file does not exist, report and
return (no load, no writes).  Otherwise load the file, enable torque,
re-remove the limits (best effort) and execute every step. -/
def play_sequence (name : String) (store : String → Option SavedData)
    (limitOk : String → String → Bool) : List Act :=
  match store name with
  | none => []
  | some data =>
    Act.torqueOn :: (limitWrites limitOk ++ data.sequence.flatMap playStepActs)

/-- A JSON value, as produced by `json.dump` / consumed by `json.load`. -/
inductive Json where
  | num (q : ℚ)
  | str (s : String)
  | arr (l : List Json)
  | obj (l : List (String × Json))

/-- Encoding of the `positions` dict of one step. -/
def jsonOfPositions (ps : List (String × Int)) : Json :=
  .obj (ps.map (fun p => (p.1, .num (p.2 : ℚ))))

/-- Encoding of one `sequence` entry, mirroring the dict literal appended
by `record_sequence`. -/
def jsonOfStep (s : Step) : Json :=
  .obj [("position", .num (s.position : ℚ)),
        ("positions", jsonOfPositions s.positions),
        ("duration", .num s.duration)]

/-- Encoding of the whole `data` dict passed to `json.dump`. -/
def jsonOfData (d : SavedData) : Json :=
  .obj [("name", .str d.name),
        ("recorded_at", .str d.recorded_at),
        ("total_positions", .num (d.total_positions : ℚ)),
        ("sequence", .arr (d.sequence.map jsonOfStep))]

/-- Decoding of a JSON number that must be an integer. -/
def intOfJson : Json → Option Int
  | .num q => if q.den = 1 then some q.num else none
  | _ => none

/-- Decoding of a JSON number that must be a nonnegative integer. -/
def natOfJson (j : Json) : Option Nat :=
  (intOfJson j).bind (fun n => if 0 ≤ n then some n.toNat else none)

/-- Decoding of a JSON number as a duration. -/
def ratOfJson : Json → Option ℚ
  | .num q => some q
  | _ => none

/-- Decoding of a JSON string. -/
def strOfJson : Json → Option String
  | .str s => some s
  | _ => none

/-- Decoding of a `positions` object back into the joint → position map. -/
def positionsOfJson : Json → Option (List (String × Int))
  | .obj l => l.mapM (fun p => (intOfJson p.2).map (fun v => (p.1, v)))
  | _ => none

/-- Decoding of one `sequence` entry, reading the fields `play_sequence`
accesses (`position`, `positions`, `duration`). -/
def stepOfJson : Json → Option Step
  | .obj l => do
    let pj ← l.lookup "position"
    let position ← natOfJson pj
    let psj ← l.lookup "positions"
    let positions ← positionsOfJson psj
    let dj ← l.lookup "duration"
    let duration ← ratOfJson dj
    pure ⟨position, positions, duration⟩
  | _ => none

/-- Decoding of the persisted file back into `SavedData`. -/
def dataOfJson : Json → Option SavedData
  | .obj l => do
    let nj ← l.lookup "name"
    let name ← strOfJson nj
    let rj ← l.lookup "recorded_at"
    let recorded_at ← strOfJson rj
    let tj ← l.lookup "total_positions"
    let total ← natOfJson tj
    let sj ← l.lookup "sequence"
    match sj with
    | .arr steps => do
      let sequence ← steps.mapM stepOfJson
      pure ⟨name, recorded_at, total, sequence⟩
    | _ => none
  | _ => none

/-! ### Helper lemmas -/

/-- `mapM` over joint reads succeeds elementwise and keeps names paired
with the decoded integers. -/
theorem mapM_read_eq (read : String → BusVal) (g : String → Int) :
    ∀ l : List (String × Nat × String),
      (∀ m ∈ l, readPresentPosition (read m.1) = some (g m.1)) →
      l.mapM (fun m => (readPresentPosition (read m.1)).map (fun v => (m.1, v)))
        = some (l.map (fun m => (m.1, g m.1)))
  | [], _ => rfl
  | a :: l, h => by
    have ha := h a (List.mem_cons_self a l)
    have hl := mapM_read_eq read g l (fun m hm => h m (List.mem_cons_of_mem a hm))
    rw [List.mapM_cons, ha, hl]
    rfl

/-! ### Claims -/

/-- C2 (counterexample to the claim as stated): a bus read failure at the
very first position capture makes `record_sequence` exit fatally with
torque disabled and never restored — the `except KeyboardInterrupt`
handler does not catch it, `self.torque_on()` is skipped, and `main`'s
`finally` only disconnects. -/
theorem torque_not_restored_on_fatal_read :
    (record_sequence "s" "t" false [] (fun _ _ => BusVal.seq [])).fatal = true
    ∧ (record_sequence "s" "t" false [] (fun _ _ => BusVal.seq [])).torqueDisabled = true
    ∧ (record_sequence "s" "t" false [] (fun _ _ => BusVal.seq [])).torqueRestored = false := by
  refine ⟨rfl, rfl, rfl⟩

/-- C2 (amended): torque is disabled for the whole capture window and is
re-enabled exactly on the non-fatal exit paths (normal completion and
operator interrupt); on a fatal bus read failure the torque-restore step
is skipped. -/
theorem record_sequence_torque_scope (name ts : String) (si : Bool)
    (entries : List (Option ℚ)) (reads : Nat → String → BusVal) :
    (record_sequence name ts si entries reads).torqueDisabled = true
    ∧ ((record_sequence name ts si entries reads).torqueRestored = true
        ↔ (record_sequence name ts si entries reads).fatal = false) := by
  simp only [record_sequence]
  cases h : (capturedSteps si entries reads).fatal <;> simp [h]

/-- C3: during playback, a step whose ordinal is not 1 waits exactly
`duration * 4 + 1.0` seconds after its goal writes when `duration > 0`,
and exactly the fast-move constant `1.0` when `duration = 0`. -/
theorem playback_wait_subsequent_step (step : Step) (h : step.position ≠ 1) :
    (0 < step.duration →
      playStepActs step
        = move_to_position step.positions step.duration
            ++ [Act.sleep (step.duration * 4 + 1)])
    ∧ (step.duration = 0 →
      playStepActs step = move_to_position step.positions 0 ++ [Act.sleep 1]) := by
  constructor <;> intro hd
  · have hne : step.duration ≠ 0 := ne_of_gt hd
    simp [playStepActs, h, hne]
  · simp [playStepActs, h, hd]

/-- Witness for C3 at a concrete step. -/
theorem playback_wait_subsequent_step_witness :
    playStepActs ⟨2, [("gripper", 5)], 3⟩
      = move_to_position [("gripper", 5)] 3 ++ [Act.sleep ((3 : ℚ) * 4 + 1)] :=
  (playback_wait_subsequent_step ⟨2, [("gripper", 5)], 3⟩ (by decide)).1 (by decide)

/-- C4: during playback, the step whose ordinal is 1 is always commanded
with fast (`duration = 0`) timing followed by the fixed `1.2` second
settle wait, irrespective of its stored duration. -/
theorem playback_step_one_fast (step : Step) (h : step.position = 1) :
    playStepActs step = move_to_position step.positions 0 ++ [Act.sleep 1.2] := by
  simp [playStepActs, h]

/-- Witness for C4 at a concrete step whose stored duration is nonzero. -/
theorem playback_step_one_fast_witness :
    playStepActs ⟨1, [("gripper", 5)], 7⟩
      = move_to_position [("gripper", 5)] 0 ++ [Act.sleep 1.2] :=
  playback_step_one_fast ⟨1, [("gripper", 5)], 7⟩ rfl

/-- C5: during recording, a non-numeric duration answer and a negative
duration answer each leave the state unchanged: the capture loop
continues with the same in-progress sequence, the same step counter and
the same capture index. -/
theorem invalid_duration_no_state_change (reads : Nat → String → BusVal)
    (rest : List (Option ℚ)) (posNum capIdx : Nat) (d : ℚ) (hd : d < 0) :
    recordLoop reads (none :: rest) posNum capIdx = recordLoop reads rest posNum capIdx
    ∧ recordLoop reads (some d :: rest) posNum capIdx
        = recordLoop reads rest posNum capIdx := by
  refine ⟨rfl, ?_⟩
  simp [recordLoop, hd]

/-- Witness for C5 at a concrete negative duration. -/
theorem invalid_duration_no_state_change_witness :
    recordLoop (fun _ _ => BusVal.scalar 0) [none] 2 1
        = recordLoop (fun _ _ => BusVal.scalar 0) [] 2 1
    ∧ recordLoop (fun _ _ => BusVal.scalar 0) [some (-1)] 2 1
        = recordLoop (fun _ _ => BusVal.scalar 0) [] 2 1 :=
  invalid_duration_no_state_change (fun _ _ => BusVal.scalar 0) [] 2 1 (-1) (by decide)

/-- C7 (counterexample to the claim as stated): a sequence-valued read
with two elements is not coerced to a scalar — `int()` raises `TypeError`
and `get_positions` fails instead of returning a mapping. -/
theorem get_positions_multi_element_read_fails :
    get_positions (fun _ => BusVal.seq [1, 2]) = none := rfl

/-- C7 (amended): when every joint's `Present_Position` read is a scalar
or a length-1 sequence (so that the coercion and `int()` conversion
succeed, yielding `g`), `get_positions` returns the mapping sending every
configured joint name to its integer position. -/
theorem get_positions_reads_all_joints (read : String → BusVal) (g : String → Int)
    (h : ∀ m ∈ motors_config, readPresentPosition (read m.1) = some (g m.1)) :
    get_positions read = some (motors_config.map (fun m => (m.1, g m.1))) :=
  mapM_read_eq read g motors_config h

/-- Witness for C7 at a concrete scalar-valued bus state. -/
theorem get_positions_reads_all_joints_witness :
    get_positions (fun _ => BusVal.scalar 7)
      = some (motors_config.map (fun m => (m.1, 7))) :=
  get_positions_reads_all_joints (fun _ => BusVal.scalar 7) (fun _ => 7) (by decide)

/-- C8: when no file is stored under the requested name, `play_sequence`
aborts cleanly: no data is loaded and the action trace is empty (no
torque change, no goal or limit writes). -/
theorem play_sequence_missing_file (name : String) (store : String → Option SavedData)
    (limitOk : String → String → Bool) (h : store name = none) :
    play_sequence name store limitOk = [] := by
  simp [play_sequence, h]

/-- Witness for C8 at a concrete empty store. -/
theorem play_sequence_missing_file_witness :
    play_sequence "missing" (fun _ => none) (fun _ _ => true) = [] :=
  play_sequence_missing_file "missing" (fun _ => none) (fun _ _ => true) rfl

/-- Decoding an encoded integer JSON number gives the integer back. -/
theorem intOfJson_intCast (v : Int) : intOfJson (.num (v : ℚ)) = some v := by
  simp [intOfJson]

/-- Decoding an encoded natural JSON number gives the natural back. -/
theorem natOfJson_natCast (n : Nat) : natOfJson (.num (n : ℚ)) = some n := by
  simp [natOfJson, intOfJson]

/-- Round trip of one `positions` object. -/
theorem positionsOfJson_roundtrip : ∀ ps : List (String × Int),
    positionsOfJson (jsonOfPositions ps) = some ps
  | [] => rfl
  | p :: ps => by
    have ih := positionsOfJson_roundtrip ps
    simp only [jsonOfPositions, positionsOfJson, List.map_cons] at ih ⊢
    rw [List.mapM_cons, intOfJson_intCast, ih]
    rfl

/-- Round trip of one `sequence` entry. -/
theorem stepOfJson_roundtrip (s : Step) : stepOfJson (jsonOfStep s) = some s := by
  have h1 : natOfJson (Json.num (s.position : ℚ)) = some s.position := natOfJson_natCast _
  have h2 := positionsOfJson_roundtrip s.positions
  simp [stepOfJson, jsonOfStep, h1, h2, ratOfJson, List.lookup]

/-- Round trip of the whole `sequence` array. -/
theorem mapM_stepOfJson (l : List Step) : (l.map jsonOfStep).mapM stepOfJson = some l := by
  induction l with
  | nil => rfl
  | cons s l ih =>
    rw [List.map_cons, List.mapM_cons, stepOfJson_roundtrip, ih]
    rfl

/-- C6: persisting a `Sequence` (encoding the `data` dict that
`record_sequence` passes to `json.dump`) and loading it back (as
`play_sequence` does with `json.load`) yields an identical record — in
particular an identical ordered step list: same ordinals, same
joint-name→position mappings, same durations, in the same order. -/
theorem saved_data_roundtrip (d : SavedData) : dataOfJson (jsonOfData d) = some d := by
  have hm : List.mapM.loop stepOfJson (List.map jsonOfStep d.sequence) [] = some d.sequence :=
    mapM_stepOfJson d.sequence
  simp [dataOfJson, jsonOfData, natOfJson_natCast, strOfJson, List.lookup, hm]

theorem get_positions_keys_aux (read : String → BusVal) :
    ∀ (l : List (String × Nat × String)) (ps : List (String × Int)),
      l.mapM (fun m => (readPresentPosition (read m.1)).map (fun v => (m.1, v))) = some ps →
      ps.map Prod.fst = l.map (fun m => m.1)
  | [], ps, h => by
    simp only [List.mapM_nil, Option.pure_def, Option.some_inj] at h
    subst h
    rfl
  | a :: l, ps, h => by
    rw [List.mapM_cons] at h
    cases hfa : readPresentPosition (read a.1) with
    | none => rw [hfa] at h; simp at h
    | some v =>
      rw [hfa] at h
      cases hfl : l.mapM (fun m => (readPresentPosition (read m.1)).map (fun v => (m.1, v))) with
      | none => rw [hfl] at h; simp at h
      | some xs =>
        rw [hfl] at h
        simp only [Option.map_some', Option.bind_eq_bind, Option.some_bind,
          Option.pure_def, Option.some_inj] at h
        subst h
        simpa using get_positions_keys_aux read l xs hfl

theorem get_positions_keys (read : String → BusVal) (ps : List (String × Int))
    (h : get_positions read = some ps) : ps.map Prod.fst = motorNames :=
  get_positions_keys_aux read motors_config ps h

theorem recordLoop_inv (reads : Nat → String → BusVal) :
    ∀ (entries : List (Option ℚ)) (posNum capIdx : Nat),
      (recordLoop reads entries posNum capIdx).fatal = false →
      (recordLoop reads entries posNum capIdx).steps.map Step.position
          = List.range' posNum (recordLoop reads entries posNum capIdx).steps.length
        ∧ (recordLoop reads entries posNum capIdx).nextPos
            = posNum + (recordLoop reads entries posNum capIdx).steps.length
        ∧ ∀ s ∈ (recordLoop reads entries posNum capIdx).steps,
            s.positions.map Prod.fst = motorNames
  | [], posNum, capIdx, _ => by simp [recordLoop]
  | none :: rest, posNum, capIdx, h => recordLoop_inv reads rest posNum capIdx h
  | some d :: rest, posNum, capIdx, h => by
    by_cases hd : d < 0
    · have he : recordLoop reads (some d :: rest) posNum capIdx
          = recordLoop reads rest posNum capIdx := by
        simp [recordLoop, hd]
      rw [he] at h ⊢
      exact recordLoop_inv reads rest posNum capIdx h
    · cases hgp : get_positions (reads capIdx) with
      | none =>
        have he : (recordLoop reads (some d :: rest) posNum capIdx).fatal = true := by
          simp [recordLoop, hd, hgp]
        rw [he] at h
        cases h
      | some pos =>
        have he : recordLoop reads (some d :: rest) posNum capIdx
            = ⟨⟨posNum, pos, d⟩ :: (recordLoop reads rest (posNum + 1) (capIdx + 1)).steps,
              (recordLoop reads rest (posNum + 1) (capIdx + 1)).nextPos,
              (recordLoop reads rest (posNum + 1) (capIdx + 1)).fatal⟩ := by
          simp [recordLoop, hd, hgp]
        rw [he] at h ⊢
        obtain ⟨ih1, ih2, ih3⟩ := recordLoop_inv reads rest (posNum + 1) (capIdx + 1) h
        refine ⟨?_, ?_, ?_⟩
        · simp only [List.map_cons, List.length_cons, ih1, List.range'_succ]
        · simp only [List.length_cons, ih2]
          omega
        · intro s hs
          rcases List.mem_cons.mp hs with hs0 | hs'
          · subst hs0
            exact get_positions_keys (reads capIdx) pos hgp
          · exact ih3 s hs'

theorem capturedSteps_inv (si : Bool) (entries : List (Option ℚ))
    (reads : Nat → String → BusVal)
    (h : (capturedSteps si entries reads).fatal = false) :
    (capturedSteps si entries reads).steps.map Step.position
        = List.range' 1 (capturedSteps si entries reads).steps.length
      ∧ (capturedSteps si entries reads).nextPos
          = 1 + (capturedSteps si entries reads).steps.length
      ∧ ∀ s ∈ (capturedSteps si entries reads).steps,
          s.positions.map Prod.fst = motorNames := by
  cases si with
  | true => simp [capturedSteps]
  | false =>
    cases hgp : get_positions (reads 0) with
    | none =>
      have he : (capturedSteps false entries reads).fatal = true := by
        simp [capturedSteps, hgp]
      rw [he] at h
      cases h
    | some pos0 =>
      have he : capturedSteps false entries reads
          = ⟨⟨1, pos0, 0⟩ :: (recordLoop reads entries 2 1).steps,
            (recordLoop reads entries 2 1).nextPos,
            (recordLoop reads entries 2 1).fatal⟩ := by
        simp [capturedSteps, hgp]
      rw [he] at h ⊢
      obtain ⟨ih1, ih2, ih3⟩ := recordLoop_inv reads entries 2 1 h
      refine ⟨?_, ?_, ?_⟩
      · simp only [List.map_cons, List.length_cons, ih1, List.range'_succ]
      · simp only [List.length_cons, ih2]
        omega
      · intro s hs
        rcases List.mem_cons.mp hs with hs0 | hs'
        · subst hs0
          exact get_positions_keys (reads 0) pos0 hgp
        · exact ih3 s hs'

/-- C1: when more than one step was captured, `record_sequence` appends
exactly one synthetic closing step whose position mapping equals step 1's
position mapping and whose duration is exactly `1.0`; when only one step
was captured, nothing is appended and the sequence is unchanged. -/
theorem record_sequence_closing_step (name ts : String) (si : Bool)
    (entries : List (Option ℚ)) (reads : Nat → String → BusVal)
    (hfatal : (capturedSteps si entries reads).fatal = false) :
    (1 < (capturedSteps si entries reads).steps.length →
      (record_sequence name ts si entries reads).finalSeq
        = (capturedSteps si entries reads).steps
          ++ [⟨(capturedSteps si entries reads).nextPos,
               ((capturedSteps si entries reads).steps.headD ⟨0, [], 0⟩).positions, 1⟩])
    ∧ ((capturedSteps si entries reads).steps.length = 1 →
      (record_sequence name ts si entries reads).finalSeq
        = (capturedSteps si entries reads).steps) := by
  constructor <;> intro hlen
  · simp [record_sequence, hfatal, closeLoop, hlen]
  · simp [record_sequence, hfatal, closeLoop, hlen]

/-- Witness for C1 at a concrete three-capture session. -/
theorem record_sequence_closing_step_witness :
    (capturedSteps false [some 2, some 0] (fun _ _ => BusVal.scalar 100)).fatal = false
    ∧ (record_sequence "n" "t" false [some 2, some 0] (fun _ _ => BusVal.scalar 100)).finalSeq
        = (capturedSteps false [some 2, some 0] (fun _ _ => BusVal.scalar 100)).steps
          ++ [⟨(capturedSteps false [some 2, some 0] (fun _ _ => BusVal.scalar 100)).nextPos,
               ((capturedSteps false [some 2, some 0]
                  (fun _ _ => BusVal.scalar 100)).steps.headD ⟨0, [], 0⟩).positions, 1⟩] :=
  ⟨by decide,
   (record_sequence_closing_step "n" "t" false [some 2, some 0]
      (fun _ _ => BusVal.scalar 100) (by decide)).1 (by decide)⟩

/-- C10: on every non-fatal recording session, every persisted step's
positions mapping has exactly the six configured joint names as keys (in
configuration order, values integers by construction), the ordinals are
the consecutive integers `1..N` in list order, and the persisted
`total_positions` equals the number of steps `N`. -/
theorem record_sequence_invariants (name ts : String) (si : Bool)
    (entries : List (Option ℚ)) (reads : Nat → String → BusVal)
    (hfatal : (record_sequence name ts si entries reads).fatal = false) :
    (∀ s ∈ (record_sequence name ts si entries reads).finalSeq,
        s.positions.map Prod.fst = motorNames)
    ∧ (record_sequence name ts si entries reads).finalSeq.map Step.position
        = List.range' 1 (record_sequence name ts si entries reads).finalSeq.length
    ∧ ∀ d, (record_sequence name ts si entries reads).saved = some d →
        d.total_positions = (record_sequence name ts si entries reads).finalSeq.length := by
  have hcap : (capturedSteps si entries reads).fatal = false := by
    by_contra hc
    rw [Bool.not_eq_false] at hc
    simp [record_sequence, hc] at hfatal
  obtain ⟨h1, h2, h3⟩ := capturedSteps_inv si entries reads hcap
  have hr : record_sequence name ts si entries reads
      = ⟨true, closeLoop (capturedSteps si entries reads).steps
            (capturedSteps si entries reads).nextPos,
         some ⟨name, ts,
           (closeLoop (capturedSteps si entries reads).steps
             (capturedSteps si entries reads).nextPos).length,
           closeLoop (capturedSteps si entries reads).steps
             (capturedSteps si entries reads).nextPos⟩,
         true, false⟩ := by
    simp [record_sequence, hcap]
  rw [hr]
  by_cases hlen : 1 < (capturedSteps si entries reads).steps.length
  · have hclose : closeLoop (capturedSteps si entries reads).steps
        (capturedSteps si entries reads).nextPos
        = (capturedSteps si entries reads).steps
          ++ [⟨(capturedSteps si entries reads).nextPos,
               ((capturedSteps si entries reads).steps.headD ⟨0, [], 0⟩).positions, 1⟩] := by
      simp [closeLoop, hlen]
    refine ⟨?_, ?_, ?_⟩
    · intro s hs
      rw [hclose] at hs
      rcases List.mem_append.mp hs with hs' | hs'
      · exact h3 s hs'
      · rcases List.mem_singleton.mp hs' with rfl
        have hne : (capturedSteps si entries reads).steps ≠ [] := by
          intro hnil
          rw [hnil] at hlen
          simp at hlen
        obtain ⟨s0, rest, hcons⟩ := List.exists_cons_of_ne_nil hne
        rw [hcons]
        simp only [List.headD_cons]
        exact h3 s0 (by rw [hcons]; exact List.mem_cons_self s0 rest)
    · rw [hclose]
      rw [List.map_append, List.length_append, h2]
      simp only [List.map_cons, List.map_nil, List.length_cons, List.length_nil]
      rw [h1]
      rw [List.range'_1_concat]
    · intro d hd
      simp only [Option.some_inj] at hd
      subst hd
      rfl
  · have hclose : closeLoop (capturedSteps si entries reads).steps
        (capturedSteps si entries reads).nextPos
        = (capturedSteps si entries reads).steps := by
      simp [closeLoop, hlen]
    rw [hclose]
    refine ⟨h3, h1, ?_⟩
    intro d hd
    simp only [Option.some_inj] at hd
    subst hd
    rfl

/-- Witness for C10 at a concrete two-capture session. -/
theorem record_sequence_invariants_witness :
    (record_sequence "n" "t" false [some 1] (fun _ _ => BusVal.scalar 3)).fatal = false
    ∧ ((∀ s ∈ (record_sequence "n" "t" false [some 1] (fun _ _ => BusVal.scalar 3)).finalSeq,
          s.positions.map Prod.fst = motorNames)
      ∧ (record_sequence "n" "t" false [some 1]
            (fun _ _ => BusVal.scalar 3)).finalSeq.map Step.position
          = List.range' 1 (record_sequence "n" "t" false [some 1]
              (fun _ _ => BusVal.scalar 3)).finalSeq.length
      ∧ ∀ d, (record_sequence "n" "t" false [some 1] (fun _ _ => BusVal.scalar 3)).saved
            = some d →
          d.total_positions = (record_sequence "n" "t" false [some 1]
              (fun _ _ => BusVal.scalar 3)).finalSeq.length) :=
  ⟨by decide,
   record_sequence_invariants "n" "t" false [some 1] (fun _ _ => BusVal.scalar 3) (by decide)⟩

/-- In the write list issued per snapshot, each joint's `Goal_Time` write
precedes its `Goal_Position` write. -/
theorem goal_writes_ordered_aux (tm : Int) :
    ∀ (ps : List (String × Int)) (m : String) (p : Int), (m, p) ∈ ps →
      ∃ i j : Nat, i < j
        ∧ (ps.flatMap (fun q =>
            [Act.write "Goal_Time" tm (some q.1),
             Act.write "Goal_Position" q.2 (some q.1)]))[i]?
            = some (Act.write "Goal_Time" tm (some m))
        ∧ (ps.flatMap (fun q =>
            [Act.write "Goal_Time" tm (some q.1),
             Act.write "Goal_Position" q.2 (some q.1)]))[j]?
            = some (Act.write "Goal_Position" p (some m))
  | [], m, p, h => absurd h (List.not_mem_nil (m, p))
  | q :: ps, m, p, h => by
    rcases List.mem_cons.mp h with heq | hmem
    · subst heq
      refine ⟨0, 1, by omega, ?_, ?_⟩ <;> simp [List.flatMap_cons]
    · obtain ⟨i, j, hij, hi, hj⟩ := goal_writes_ordered_aux tm ps m p hmem
      refine ⟨i + 2, j + 2, by omega, ?_, ?_⟩
      · rw [List.flatMap_cons]
        simpa using hi
      · rw [List.flatMap_cons]
        simpa using hj

/-- C9: for every call to `move_to_position` and every joint in the given
snapshot, the `Goal_Time` write for that joint is issued before that
joint's `Goal_Position` write, and its value is `800` ms when the
duration argument is `0` and `int(duration * 1000)` ms otherwise. -/
theorem goal_time_before_goal_position (ps : List (String × Int)) (d : ℚ)
    (m : String) (p : Int) (hmem : (m, p) ∈ ps) :
    ∃ i j : Nat, i < j
      ∧ (move_to_position ps d)[i]?
          = some (Act.write "Goal_Time"
              (if d = 0 then 800 else pyInt (d * 1000)) (some m))
      ∧ (move_to_position ps d)[j]?
          = some (Act.write "Goal_Position" p (some m)) :=
  goal_writes_ordered_aux (if d = 0 then 800 else pyInt (d * 1000)) ps m p hmem

/-- Witness for C9 at a concrete one-joint snapshot. -/
theorem goal_time_before_goal_position_witness :
    ∃ i j : Nat, i < j
      ∧ (move_to_position [("gripper", 42)] 0)[i]?
          = some (Act.write "Goal_Time"
              (if (0 : ℚ) = 0 then 800 else pyInt (0 * 1000)) (some "gripper"))
      ∧ (move_to_position [("gripper", 42)] 0)[j]?
          = some (Act.write "Goal_Position" 42 (some "gripper")) :=
  goal_time_before_goal_position [("gripper", 42)] 0 "gripper" 42 (by decide)

end SimplePositionRecorder
